import Mathlib

/-!
Verification of the xoreos module-lifecycle / deferred-action core.

Shallow embedding of:
  * `src/engines/kotor2/module.h` — the KotOR2 `Module` controller, its
    deferred-action queue (`ActionQueue = std::multiset<Action>`) and
    module-change scheduling (`_newModule`, `changeModule`/`replaceModule`).
    Only the header is among the sources, so the bodies of these members are
    modelled from the specification (each such definition says so in its
    doc comment).
  * `src/engines/nwn2/script/functions.cpp` — the NWN2 `Functions` layer:
    `registerFunctions`, `unimplementedFunction`, `getRandom`, `formatTag`,
    `formatParams`, `getParamObject` and `jumpTo`. These bodies are in the
    sources and are embedded directly.
-/

namespace Kotor2

/-- Action discriminator, from `Module::ActionType` in module.h. -/
inductive ActionType where
  | kActionNone
  | kActionScript
deriving DecidableEq

/-- One deferred scripted action, from `Module::Action` in module.h.
The script state is opaque (`Nat`); owner and triggerer are weak object
references (`Option Nat`, `none` meaning the referenced object is gone);
`timestamp` is the simulated tick count at which the action fires. -/
structure Action where
  type : ActionType
  script : String
  state : Nat
  owner : Option Nat
  triggerer : Option Nat
  timestamp : Nat

/-- Modelled from the spec: the body of `Action::operator<` is not among the
sources (module.h only declares it); per the spec the queue is ordered by
timestamp ascending. `insertAction` inserts as `std::multiset::insert` does:
at the upper bound of the equal range, i.e. after every element whose
timestamp is less than or equal to the new action's, so insertion order is
preserved among equal timestamps. -/
def insertAction : List Action → Action → List Action
  | [], a => [a]
  | b :: q, a =>
      if a.timestamp < b.timestamp then a :: b :: q
      else b :: insertAction q a

/-- The queue obtained by inserting the given actions, in order, into an
initially empty queue. -/
def buildQueue (as : List Action) : List Action :=
  as.foldl insertAction []

/-- Modelled from the spec: the body of `Module::handleActions` is not among
the sources. Per spec §4.2, `popReady` removes and returns every action whose
timestamp is less than or equal to the current time, in queue order; the rest
remain in the queue, in queue order. -/
def popReady (T : Nat) (q : List Action) : List Action × List Action :=
  (q.filter (fun a => a.timestamp ≤ T), q.filter (fun a => T < a.timestamp))

/-- Ordering relation of the queue: timestamps are non-decreasing. -/
def tsLE (a b : Action) : Prop := a.timestamp ≤ b.timestamp

theorem mem_insertAction (q : List Action) (a c : Action) :
    c ∈ insertAction q a ↔ c ∈ q ∨ c = a := by
  induction q with
  | nil => simp [insertAction]
  | cons b q ih =>
      by_cases hab : a.timestamp < b.timestamp
      · rw [insertAction, if_pos hab]
        simp only [List.mem_cons]
        tauto
      · rw [insertAction, if_neg hab]
        simp only [List.mem_cons, ih]
        tauto

theorem insertAction_sorted (q : List Action) (a : Action)
    (h : q.Pairwise tsLE) : (insertAction q a).Pairwise tsLE := by
  induction q with
  | nil => simp [insertAction]
  | cons b q ih =>
      rw [List.pairwise_cons] at h
      by_cases hab : a.timestamp < b.timestamp
      · rw [insertAction, if_pos hab, List.pairwise_cons]
        refine ⟨?_, List.pairwise_cons.mpr h⟩
        intro c hc
        rcases List.mem_cons.mp hc with rfl | hc
        · exact Nat.le_of_lt hab
        · exact Nat.le_trans (Nat.le_of_lt hab) (h.1 c hc)
      · rw [insertAction, if_neg hab, List.pairwise_cons]
        constructor
        · intro c hc
          rcases (mem_insertAction q a c).mp hc with hc | rfl
          · exact h.1 c hc
          · exact Nat.le_of_not_lt hab
        · exact ih h.2

theorem insertAction_filter (q : List Action) (a : Action) (t : Nat)
    (h : q.Pairwise tsLE) :
    (insertAction q a).filter (fun b => b.timestamp == t) =
      if a.timestamp = t then
        q.filter (fun b => b.timestamp == t) ++ [a]
      else
        q.filter (fun b => b.timestamp == t) := by
  induction q with
  | nil =>
      by_cases hat : a.timestamp = t
      · simp [insertAction, List.filter_cons, hat]
      · simp [insertAction, List.filter_cons, hat]
  | cons b q ih =>
      rw [List.pairwise_cons] at h
      by_cases hab : a.timestamp < b.timestamp
      · rw [insertAction, if_pos hab]
        by_cases hat : a.timestamp = t
        · -- a goes in front; everything in b :: q has a strictly larger
          -- timestamp, so nothing in b :: q matches t
          have hnone : ∀ c ∈ b :: q, ¬ (c.timestamp = t) := by
            intro c hc hct
            have hbc : b.timestamp ≤ c.timestamp := by
              rcases List.mem_cons.mp hc with rfl | hc
              · exact Nat.le_refl _
              · exact h.1 c hc
            have := Nat.lt_of_lt_of_le hab hbc
            omega
          have hbt : ¬ (b.timestamp = t) := hnone b (List.mem_cons_self b q)
          have hqt : q.filter (fun c => c.timestamp == t) = [] := by
            apply List.filter_eq_nil_iff.mpr
            intro c hc
            simpa using hnone c (List.mem_cons_of_mem b hc)
          rw [if_pos hat]
          simp [List.filter_cons, hat, hbt, hqt]
        · rw [if_neg hat]
          simp [List.filter_cons, hat]
      · rw [insertAction, if_neg hab]
        by_cases hat : a.timestamp = t
        · rw [if_pos hat]
          by_cases hbt : b.timestamp = t
          · simp [List.filter_cons, hbt, ih h.2, hat]
          · simp [List.filter_cons, hbt, ih h.2, hat]
        · rw [if_neg hat]
          by_cases hbt : b.timestamp = t
          · simp [List.filter_cons, hbt, ih h.2, hat]
          · simp [List.filter_cons, hbt, ih h.2, hat]

theorem buildQueue_aux_sorted (as : List Action) :
    ∀ q : List Action, q.Pairwise tsLE → (as.foldl insertAction q).Pairwise tsLE := by
  induction as with
  | nil => intro q h; simpa using h
  | cons a as ih =>
      intro q h
      exact ih (insertAction q a) (insertAction_sorted q a h)

theorem buildQueue_aux_filter (as : List Action) (t : Nat) :
    ∀ q : List Action, q.Pairwise tsLE →
      (as.foldl insertAction q).filter (fun b => b.timestamp == t) =
        q.filter (fun b => b.timestamp == t) ++
          as.filter (fun b => b.timestamp == t) := by
  induction as with
  | nil => intro q _; simp
  | cons a as ih =>
      intro q h
      rw [List.foldl_cons, ih (insertAction q a) (insertAction_sorted q a h),
          insertAction_filter q a t h]
      by_cases hat : a.timestamp = t
      · simp [List.filter_cons, hat]
      · simp [List.filter_cons, hat]

theorem buildQueue_sorted (as : List Action) : (buildQueue as).Pairwise tsLE :=
  buildQueue_aux_sorted as [] (List.Pairwise.nil)

theorem buildQueue_filter (as : List Action) (t : Nat) :
    (buildQueue as).filter (fun b => b.timestamp == t) =
      as.filter (fun b => b.timestamp == t) := by
  have := buildQueue_aux_filter as t [] (List.Pairwise.nil)
  simpa [buildQueue] using this

theorem filter_filter_of_imp {α : Type} (p r : α → Bool) (q : List α)
    (h : ∀ a, r a = true → p a = true) :
    (q.filter p).filter r = q.filter r := by
  induction q with
  | nil => rfl
  | cons a q ih =>
      by_cases hr : r a = true
      · have hp := h a hr
        simp [List.filter_cons, hp, hr, ih]
      · by_cases hp : p a = true
        · simp [List.filter_cons, hp, hr, ih]
        · simp only [Bool.not_eq_true] at hp
          simp [List.filter_cons, hp, hr, ih]

theorem filter_filter_of_excl {α : Type} (p r : α → Bool) (q : List α)
    (h : ∀ a, r a = true → p a = false) :
    (q.filter p).filter r = [] := by
  induction q with
  | nil => rfl
  | cons a q ih =>
      by_cases hra : r a = true
      · have hpa := h a hra
        simp [List.filter_cons, hpa, ih]
      · by_cases hp : p a = true
        · simp only [Bool.not_eq_true] at hra
          simp [List.filter_cons, hp, hra, ih]
        · simp only [Bool.not_eq_true] at hp
          simp [List.filter_cons, hp, ih]

/-- C1: for every sequence of `insert(Action, t)` calls into the
deferred-action queue and every time `T`, `popReady(T)` removes and returns
exactly the subsequence of inserted actions with timestamp `t ≤ T`, ordered
first by `t` ascending and, among equal timestamps, by insertion order.
Formally: the returned list is sorted by timestamp, and for each timestamp
`t ≤ T` its actions with that timestamp are exactly the actions of the
insertion sequence with that timestamp, in insertion order, while no action
with timestamp `> T` is returned; the remaining queue holds exactly the
actions with timestamp `> T`, again in insertion order per timestamp. These
conditions determine the returned list uniquely, so they are equivalent to
the claim's ordering statement. -/
theorem popReady_exact (as : List Action) (T : Nat) :
    ((popReady T (buildQueue as)).1.Pairwise tsLE) ∧
    (∀ t, t ≤ T →
      (popReady T (buildQueue as)).1.filter (fun a => a.timestamp == t) =
        as.filter (fun a => a.timestamp == t)) ∧
    (∀ t, T < t →
      (popReady T (buildQueue as)).1.filter (fun a => a.timestamp == t) = []) ∧
    (∀ t, T < t →
      (popReady T (buildQueue as)).2.filter (fun a => a.timestamp == t) =
        as.filter (fun a => a.timestamp == t)) ∧
    (∀ t, t ≤ T →
      (popReady T (buildQueue as)).2.filter (fun a => a.timestamp == t) = []) := by
  refine ⟨?_, ?_, ?_, ?_, ?_⟩
  · exact List.Pairwise.filter _ (buildQueue_sorted as)
  · intro t ht
    rw [popReady]
    rw [filter_filter_of_imp _ _ _ (fun a ha => ?_), buildQueue_filter]
    have : a.timestamp = t := by simpa using ha
    simp [this]
    omega
  · intro t ht
    rw [popReady]
    refine filter_filter_of_excl _ _ _ (fun a ha => ?_)
    have : a.timestamp = t := by simpa using ha
    simp [this]
    omega
  · intro t ht
    rw [popReady]
    rw [filter_filter_of_imp _ _ _ (fun a ha => ?_), buildQueue_filter]
    have : a.timestamp = t := by simpa using ha
    simp [this]
    omega
  · intro t ht
    rw [popReady]
    refine filter_filter_of_excl _ _ _ (fun a ha => ?_)
    have : a.timestamp = t := by simpa using ha
    simp [this]
    omega

/-- External content lookup: maps a module name to the identifier of its
entry area (the resource system and IFO parsing are outside this core). -/
structure ModEnv where
  areaOf : String → String

/-- State of the KotOR2 `Module` controller, from the fields of module.h:
`_hasModule`, `_running`, `_module`, `_newModule`, `_entryLocation`,
`_entryLocationType` and `_area` (the area is identified by name here). -/
structure ModuleController where
  hasModule : Bool
  running : Bool
  moduleName : String
  newModule : String
  entryLocation : String
  entryLocationType : Nat
  area : Option String

/-- Accessor matching `Module::getCurrentArea`. -/
def getCurrentArea (st : ModuleController) : Option String := st.area

/-- Modelled from the spec: the body of `Module::changeModule` ("Schedule a
change to a new module") is not among the sources. Per spec §4.1, it only
records the requested target module and entry location in `_newModule` /
`_entryLocation` / `_entryLocationType`; nothing else changes. -/
def changeModule (name entry : String) (ety : Nat)
    (st : ModuleController) : ModuleController :=
  { st with newModule := name, entryLocation := entry, entryLocationType := ety }

/-- Modelled from the spec: the body of `Module::loadModule` is not among the
sources. A fresh load populates the module (name, IFO) and clears any pending
change; the area is only loaded by `enter`. -/
def loadModule (name entry : String) (ety : Nat)
    (st : ModuleController) : ModuleController :=
  { st with hasModule := true, moduleName := name, newModule := "",
            entryLocation := entry, entryLocationType := ety }

/-- Modelled from the spec: the body of `Module::unload` is not among the
sources. Unloading drops the module, its area, and any running flag. -/
def unload (st : ModuleController) : ModuleController :=
  { st with hasModule := false, running := false, area := none }

/-- Modelled from the spec: the body of `Module::enter` is not among the
sources. Entering a loaded, not-yet-running module loads its area and
transitions to `Running`; otherwise it is a no-op caller error. -/
def enter (env : ModEnv) (st : ModuleController) : ModuleController :=
  if st.hasModule && !st.running then
    { st with running := true, area := some (env.areaOf st.moduleName) }
  else st

/-- Modelled from the spec: the body of `Module::load` is not among the
sources. If a module is already loaded, the request is only recorded
(`changeModule`); the swap happens at the next `tick` boundary. Otherwise the
module is loaded synchronously. -/
def load (name entry : String) (ety : Nat)
    (st : ModuleController) : ModuleController :=
  if st.hasModule then changeModule name entry ety st
  else loadModule name entry ety st

/-- Modelled from the spec: the body of `Module::replaceModule` ("Actually
replace the currently running module") is not among the sources. Per spec
§4.1 step (4): unload the current module, load the recorded target, and
re-enter, all within the tick boundary. A blank `_newModule` means no change
is pending. -/
def replaceModule (env : ModEnv) (st : ModuleController) : ModuleController :=
  if st.newModule = "" then st
  else
    enter env
      (loadModule st.newModule st.entryLocation st.entryLocationType (unload st))

/-- Modelled from the spec: the module-replacement step of `Module::tick`
(step (4) of spec §4.1). Steps (1)-(3) (event drain, action drain, movement)
do not touch the loaded-module state and are elided here. -/
def tick (env : ModEnv) (st : ModuleController) : ModuleController :=
  if st.running then replaceModule env st else st

/-- C2: if a module is already loaded, `load(name, ...)` does not swap the
module synchronously: it only records the requested target, and until the
next `tick()` boundary `getCurrentArea()` (and the loaded module itself) are
unchanged; at the next `tick()` the replacement is performed. -/
theorem load_deferred (env : ModEnv) (name entry : String) (ety : Nat)
    (st : ModuleController) (h : st.hasModule = true) :
    getCurrentArea (load name entry ety st) = getCurrentArea st ∧
    (load name entry ety st).moduleName = st.moduleName ∧
    (load name entry ety st).running = st.running ∧
    (load name entry ety st).hasModule = st.hasModule ∧
    (load name entry ety st).newModule = name ∧
    (st.running = true → name ≠ "" →
      (tick env (load name entry ety st)).moduleName = name ∧
      getCurrentArea (tick env (load name entry ety st)) =
        some (env.areaOf name) ∧
      (tick env (load name entry ety st)).running = true) := by
  refine ⟨?_, ?_, ?_, ?_, ?_, ?_⟩
  · simp [load, h, changeModule, getCurrentArea]
  · simp [load, h, changeModule]
  · simp [load, h, changeModule]
  · simp [load, h, changeModule]
  · simp [load, h, changeModule]
  · intro hr hn
    refine ⟨?_, ?_, ?_⟩ <;>
      simp [tick, load, h, hr, changeModule, replaceModule, hn, enter,
            loadModule, unload, getCurrentArea]

/-- Witness for `load_deferred` at a concrete state. -/
theorem load_deferred_witness :
    getCurrentArea
        (load "m2" "" 0 ⟨true, true, "m1", "", "", 0, some "m1_area"⟩) =
      getCurrentArea
        (⟨true, true, "m1", "", "", 0, some "m1_area"⟩ : ModuleController) :=
  (load_deferred ⟨fun m => m ++ "_area"⟩ "m2" "" 0
    ⟨true, true, "m1", "", "", 0, some "m1_area"⟩ rfl).1

/-- Sample actions used to instantiate the queue theorem. -/
def wActA : Action := ⟨ActionType.kActionScript, "a", 0, none, none, 3⟩

def wActB : Action := ⟨ActionType.kActionScript, "b", 1, some 1, none, 1⟩

def wActC : Action := ⟨ActionType.kActionScript, "c", 2, none, some 2, 3⟩

/-- Witness for `popReady_exact` at a concrete insertion sequence and time. -/
theorem popReady_exact_witness :
    (popReady 3 (buildQueue [wActA, wActB, wActC])).1.filter
        (fun a => a.timestamp == 3) =
      [wActA, wActB, wActC].filter (fun a => a.timestamp == 3) :=
  (popReady_exact [wActA, wActB, wActC] 3).2.1 3 (by decide)

end Kotor2

namespace NWN2

/-- One pseudo-random draw of the loop body of `Functions::getRandom`
(functions.cpp lines 107-108): `std::rand() % (max - min + 1) + min`. The
stream `rand` models the successive non-negative values returned by
`std::rand()`; `%` on a non-negative dividend and positive divisor agrees
between C++ and `Int.emod`. The C++ `int32` arithmetic is modelled with
mathematical integers (signed overflow is undefined behaviour in the
source). -/
def draw (rand : Nat → Nat) (min max : Int) (i : Nat) : Int :=
  (rand i : Int) % (max - min + 1) + min

/-- Sum of the first `k` draws, the accumulator `r` of `Functions::getRandom`
after `k` loop iterations. -/
def drawSum (rand : Nat → Nat) (min max : Int) : Nat → Int
  | 0 => 0
  | k + 1 => drawSum rand min max k + draw rand min max k

/-- Embeds `Functions::getRandom` (functions.cpp lines 101-111): `n` is
clamped up to 1, then the loop adds one draw per iteration. -/
def getRandom (rand : Nat → Nat) (min max n : Int) : Int :=
  let k : Int := if n < 1 then 1 else n
  drawSum rand min max k.toNat

theorem draw_bounds (rand : Nat → Nat) (min max : Int) (h : min ≤ max)
    (i : Nat) : min ≤ draw rand min max i ∧ draw rand min max i ≤ max := by
  have hpos : 0 < max - min + 1 := by omega
  have h0 : 0 ≤ (rand i : Int) % (max - min + 1) :=
    Int.emod_nonneg _ (by omega)
  have h1 : (rand i : Int) % (max - min + 1) < max - min + 1 :=
    Int.emod_lt_of_pos _ hpos
  unfold draw
  omega

theorem drawSum_bounds (rand : Nat → Nat) (min max : Int) (h : min ≤ max) :
    ∀ k : Nat, (k : Int) * min ≤ drawSum rand min max k ∧
      drawSum rand min max k ≤ (k : Int) * max := by
  intro k
  induction k with
  | zero => simp [drawSum]
  | succ k ih =>
      have hd := draw_bounds rand min max h k
      have hk : ((k + 1 : Nat) : Int) = (k : Int) + 1 := by push_cast; ring
      constructor
      · calc ((k + 1 : Nat) : Int) * min = (k : Int) * min + min := by
              rw [hk]; ring
          _ ≤ drawSum rand min max k + draw rand min max k :=
              add_le_add ih.1 hd.1
          _ = drawSum rand min max (k + 1) := rfl
      · calc drawSum rand min max (k + 1)
            = drawSum rand min max k + draw rand min max k := rfl
          _ ≤ (k : Int) * max + max := add_le_add ih.2 hd.2
          _ = ((k + 1 : Nat) : Int) * max := by rw [hk]; ring

/-- C9: for every `min ≤ max` and every `n`, `getRandom(min, max, n)` is the
sum of `k = max(n, 1)` draws, each lying in `[min, max]`; the result lies in
`[k*min, k*max]`; every `n ≤ 0` behaves exactly as `n = 1`; and the modulus
`max - min + 1` is positive, so each draw is well-defined. -/
theorem getRandom_spec (rand : Nat → Nat) (min max n : Int) (h : min ≤ max) :
    0 < max - min + 1 ∧
    (∀ i, min ≤ draw rand min max i ∧ draw rand min max i ≤ max) ∧
    (n ≤ 0 → getRandom rand min max n = getRandom rand min max 1) ∧
    getRandom rand min max n = drawSum rand min max (Max.max 1 n).toNat ∧
    ((Max.max 1 n) * min ≤ getRandom rand min max n ∧
      getRandom rand min max n ≤ (Max.max 1 n) * max) := by
  have hone : ((if n < 1 then 1 else n) : Int) = Max.max 1 n := by
    by_cases hn : n < 1
    · simp [hn]; omega
    · simp [hn]; omega
  have hkeq : getRandom rand min max n =
      drawSum rand min max (Max.max 1 n).toNat := by
    rw [getRandom]
    simp only [hone]
  have hk1 : (1 : Int) ≤ Max.max 1 n := le_max_left 1 n
  have hcast : ((Max.max 1 n).toNat : Int) = Max.max 1 n :=
    Int.toNat_of_nonneg (by omega)
  refine ⟨by omega, draw_bounds rand min max h, ?_, hkeq, ?_⟩
  · intro hn0
    rw [getRandom, getRandom]
    have : ((if n < 1 then 1 else n) : Int) = 1 := by
      rw [if_pos (by omega)]
    rw [this]
    norm_num
  · have hb := drawSum_bounds rand min max h (Max.max 1 n).toNat
    rw [hkeq]
    rw [hcast] at hb
    exact hb

/-- Witness for `getRandom_spec`: three d6-style rolls. -/
theorem getRandom_spec_witness :
    (3 : Int) * 1 ≤ getRandom (fun i => i) 1 6 3 ∧
      getRandom (fun i => i) 1 6 3 ≤ (3 : Int) * 6 := by
  have := (getRandom_spec (fun i => i) 1 6 3 (by decide)).2.2.2.2
  simpa using this

/-- The NWScript variable types, from the `kType*` enum used by
functions.cpp (types.h is outside the sources; the enum members appearing in
the source are mirrored one-to-one). -/
inductive VarType where
  | void
  | int
  | float
  | string
  | object
  | vector
  | struct
  | engineType
  | scriptState
deriving DecidableEq

/-- A typed NWScript variable as read by `Functions::formatParams`. An object
variable carries the object pointer and its tag (`object->getTag()`), `none`
being a null object pointer. -/
inductive Variable where
  | void
  | int (i : Int)
  | float (f : Float)
  | string (s : String)
  | object (o : Option (Nat × String))
  | vector (x y z : Float)
  | struct
  | engineType
  | scriptState

/-- Type tag of a variable, as `Variable::getType` returns it. -/
def Variable.varType : Variable → VarType
  | .void => .void
  | .int _ => .int
  | .float _ => .float
  | .string _ => .string
  | .object _ => .object
  | .vector _ _ _ => .vector
  | .struct => .struct
  | .engineType => .engineType
  | .scriptState => .scriptState

/-- Models the external `Common::composeString` (strutil is outside the
sources): decimal rendering of a number. -/
def composeStringInt (i : Int) : String := toString i

/-- Models the external `Common::composeString` for floats. -/
def composeStringFloat (f : Float) : String := toString f

/-- Embeds `Functions::formatTag` (functions.cpp lines 113-118): `"0"` for a
null object, the quoted tag otherwise. -/
def formatTag (object : Option (Nat × String)) : String :=
  match object with
  | none => "0"
  | some o => "\"" ++ o.2 ++ "\""

/-- The per-parameter cases of `Functions::formatParams` (functions.cpp
lines 126-171), one case per variable type. -/
def formatVariable (v : Variable) : String :=
  match v with
  | .void => "<void>"
  | .int i => composeStringInt i
  | .float f => composeStringFloat f
  | .string s => "\"" ++ s ++ "\""
  | .object o => "<object>(" ++ formatTag o ++ ")"
  | .vector x y z =>
      "(" ++ composeStringFloat x ++ ", " ++ composeStringFloat y ++ ", " ++
        composeStringFloat z ++ ")"
  | .struct => "<struct>"
  | .engineType => "<engine>"
  | .scriptState => "<state>"

/-- An `Aurora::NWScript::FunctionContext`: function name, positional
parameters, the calling object (`getCaller`, a pointer), and the current
return slot. -/
structure FunctionContext where
  name : String
  params : List Variable
  caller : Option Nat
  ret : Variable

/-- Embeds `Functions::formatParams` (functions.cpp lines 120-175): the
parameters formatted in order, separated by `", "`. -/
def formatParams (ctx : FunctionContext) : String :=
  String.intercalate ", " (ctx.params.map formatVariable)

/-- A registered script-function callable: it may update the context (in
particular its return slot) and emits log lines. It is a total function —
the embedded callables neither throw nor diverge. -/
def Callable : Type := FunctionContext → FunctionContext × List String

/-- Embeds `Functions::unimplementedFunction` (functions.cpp lines 97-99):
log `TODO: name(params)` via `warning` and return without touching the
context, so the return slot keeps the zero/empty default the function
manager initialised it to. -/
def unimplementedFunction : Callable :=
  fun ctx => (ctx, ["TODO: " ++ ctx.name ++ "(" ++ formatParams ctx ++ ")"])

/-- One row across the three parallel tables `kFunctionPointers`,
`kFunctionSignatures` and `kFunctionDefaults` (function_tables.h; the
`assert`s in `registerFunctions` guarantee the ids line up, so the row is
merged here). `func = none` is a null implementation pointer; `parameters`
is the fixed-size parameter array (terminated by the first `kTypeVoid`);
`defaults` is the fixed-size defaults array (terminated by the first null). -/
structure FunctionTableRow where
  name : String
  id : Nat
  func : Option Callable
  returnType : VarType
  parameters : List VarType
  defaults : List (Option Variable)

/-- A function as handed to `FunctionMan.registerFunction`. -/
structure RegisteredFunction where
  name : String
  id : Nat
  callable : Callable
  signature : List VarType
  defaults : List Variable

/-- One iteration of the `Functions::registerFunctions` loop (functions.cpp
lines 65-94): build the signature (return type, then parameters up to the
first `kTypeVoid`), the defaults (up to the first null), and pick the
implementation — or `unimplementedFunction` when the pointer is null. -/
def registerRow (r : FunctionTableRow) : RegisteredFunction :=
  { name := r.name
    id := r.id
    callable :=
      match r.func with
      | some f => f
      | none => unimplementedFunction
    signature :=
      r.returnType :: r.parameters.takeWhile (fun t => !(t == VarType.void))
    defaults := (r.defaults.takeWhile Option.isSome).filterMap id }

/-- Embeds `Functions::registerFunctions` (functions.cpp lines 61-95). -/
def registerFunctions (table : List FunctionTableRow) :
    List RegisteredFunction :=
  table.map registerRow

/-- C8: every function-table entry whose implementation pointer is null is
registered with the unimplemented-operation handler; invoking that handler
logs a `TODO: name(params)` diagnostic and leaves the context — including
its zero/empty return slot — untouched, returning normally. -/
theorem unimplemented_registered (table : List FunctionTableRow) (i : Nat)
    (r : FunctionTableRow) (h1 : table[i]? = some r)
    (h2 : r.func = none) :
    ∃ reg, (registerFunctions table)[i]? = some reg ∧
      reg.name = r.name ∧ reg.id = r.id ∧
      reg.callable = unimplementedFunction ∧
      ∀ ctx, (unimplementedFunction ctx).1 = ctx ∧
        (unimplementedFunction ctx).1.ret = ctx.ret ∧
        (unimplementedFunction ctx).2 =
          ["TODO: " ++ ctx.name ++ "(" ++ formatParams ctx ++ ")"] := by
  refine ⟨registerRow r, ?_, rfl, rfl, ?_, ?_⟩
  · rw [registerFunctions, List.getElem?_map, h1]
    rfl
  · rw [registerRow]
    simp [h2]
  · intro ctx
    exact ⟨rfl, rfl, rfl⟩

/-- A concrete table row with a null implementation pointer. -/
def wRow : FunctionTableRow :=
  { name := "PrintString"
    id := 1
    func := none
    returnType := VarType.void
    parameters := [VarType.string, VarType.void]
    defaults := [] }

/-- Object types relevant to `Functions::getParamObject`: the enum constants
`kObjectTypeInvalid` and `kObjectTypeSelf` from types.h (outside the
sources), plus all other object types collapsed into `other`. -/
inductive ObjectType where
  | invalid
  | self
  | other (k : Nat)
deriving DecidableEq

/-- An engine-side `NWN2::Object`, as produced by
`NWN2::ObjectContainer::toObject`: its pointer and its type tag. -/
structure NWN2Object where
  id : Nat
  type : ObjectType
deriving DecidableEq

/-- The object pointer stored in the `n`-th parameter,
`ctx.getParams()[n].getObject()`; a non-object variable yields a null
pointer. -/
def getObjectArg (ctx : FunctionContext) (n : Nat) : Option Nat :=
  match ctx.params.get? n with
  | some (Variable.object (some o)) => some o.1
  | _ => none

/-- Embeds `Functions::getParamObject` (functions.cpp lines 181-190).
`toObject` models the external `NWN2::ObjectContainer::toObject` dynamic
cast (objectcontainer.h is outside the sources); a null pointer casts to
null, hence the `bind`. -/
def getParamObject (toObject : Nat → Option NWN2Object)
    (ctx : FunctionContext) (n : Nat) : Option Nat :=
  match (getObjectArg ctx n).bind toObject with
  | none => none
  | some object =>
      if object.type = ObjectType.invalid then none
      else if object.type = ObjectType.self then ctx.caller
      else some object.id

/-- C10: `getParamObject` returns null when the `n`-th parameter's object
reference is null or resolves to an object of invalid type; returns the
calling object when the object has the `self` type; and otherwise returns
the resolved object itself, whose type is then neither invalid nor self. -/
theorem getParamObject_spec (toObject : Nat → Option NWN2Object)
    (ctx : FunctionContext) (n : Nat) :
    ((getObjectArg ctx n).bind toObject = none →
      getParamObject toObject ctx n = none) ∧
    (∀ o, (getObjectArg ctx n).bind toObject = some o →
      o.type = ObjectType.invalid → getParamObject toObject ctx n = none) ∧
    (∀ o, (getObjectArg ctx n).bind toObject = some o →
      o.type = ObjectType.self → getParamObject toObject ctx n = ctx.caller) ∧
    (∀ o, (getObjectArg ctx n).bind toObject = some o →
      o.type ≠ ObjectType.invalid → o.type ≠ ObjectType.self →
      getParamObject toObject ctx n = some o.id) := by
  refine ⟨?_, ?_, ?_, ?_⟩
  · intro h
    rw [getParamObject, h]
  · intro o h hinv
    rw [getParamObject, h]
    simp [hinv]
  · intro o h hself
    rw [getParamObject, h]
    have : o.type ≠ ObjectType.invalid := by rw [hself]; decide
    simp [this, hself]
  · intro o h hinv hself
    rw [getParamObject, h]
    simp [hinv, hself]

/-- A concrete context for the `getParamObject` witness: one object
parameter whose pointer 5 resolves to a creature-typed object. -/
def wCtx : FunctionContext :=
  { name := "GetTag"
    params := [Variable.object (some (5, "door_a"))]
    caller := some 9
    ret := Variable.void }

/-- Witness for `getParamObject_spec` at a concrete context. -/
theorem getParamObject_spec_witness :
    getParamObject (fun p => some ⟨p, ObjectType.other 3⟩) wCtx 0 = some 5 :=
  (getParamObject_spec (fun p => some ⟨p, ObjectType.other 3⟩) wCtx 0).2.2.2
    ⟨5, ObjectType.other 3⟩ rfl (by decide) (by decide)

/-- Witness for `unimplemented_registered` at a concrete one-row table. -/
theorem unimplemented_registered_witness :
    ∃ reg, (registerFunctions [wRow])[0]? = some reg ∧
      reg.name = wRow.name ∧ reg.id = wRow.id ∧
      reg.callable = unimplementedFunction ∧
      ∀ ctx, (unimplementedFunction ctx).1 = ctx ∧
        (unimplementedFunction ctx).1.ret = ctx.ret ∧
        (unimplementedFunction ctx).2 =
          ["TODO: " ++ ctx.name ++ "(" ++ formatParams ctx ++ ")"] :=
  unimplemented_registered [wRow] 0 wRow rfl rfl

/-- Observable effects of `Functions::jumpTo`, in program order: the two
`warning` calls, the renderer frame lock (`GfxMan.lockFrame` /
`GfxMan.unlockFrame`), the visibility calls on the relocated object
(`hide`, `unloadModel`, `loadModel`, `show`), the world mutations
(`setArea`, `setPosition` — the coordinates live in the object state), and
the `movedPC` notification to the module. -/
inductive Eff where
  | warnNoArea (hasArea areaNonNull : Bool)
  | lockFrame
  | warnMoving (fromRef toRef : String)
  | objHide (obj : Nat)
  | unloadModel (obj : Nat)
  | loadModel (obj : Nat)
  | objShow (obj : Nat)
  | setArea (obj area : Nat)
  | setPosition (obj : Nat)
  | unlockFrame
  | movedPC
deriving DecidableEq

/-- State of the relocated `NWN2::Object`: its current area (a pointer,
`none` = null), position, visibility, and whether its model is loaded. -/
structure ObjState where
  area : Option Nat
  x : Float
  y : Float
  z : Float
  visible : Bool
  modelLoaded : Bool

/-- Environment of `Functions::jumpTo`: `resRefOf` gives each area pointer's
resref (`Area::getResRef`); `pcPtr` is the raw pointer returned by
`_game->getModule().getPC()` (`none` = null); `pcArea` is, when
`ObjectContainer::toObject(getPC())` is non-null, that object's current area
pointer (the source dereferences `pc->getArea()` unconditionally). -/
structure JumpEnv where
  resRefOf : Nat → String
  pcPtr : Option Nat
  pcArea : Option Nat

/-- Embeds `Functions::jumpTo` (functions.cpp lines 192-237) for object
`objId` in state `obj`, destination `area`, position `(x, y, z)`. Returns
the updated object state and the effect trace in program order. -/
def jumpTo (env : JumpEnv) (objId : Nat) (obj : ObjState) (area : Option Nat)
    (x y z : Float) : ObjState × List Eff :=
  match obj.area, area with
  | none, a => (obj, [Eff.warnNoArea false a.isSome])
  | some _, none => (obj, [Eff.warnNoArea true false])
  | some src, some dst =>
      if src ≠ dst then
        let areaFrom := env.resRefOf src
        let areaTo := env.resRefOf dst
        let vis :=
          match env.pcArea with
          | none => (obj, ([] : List Eff))
          | some pcA =>
              let pcAreaRef := env.resRefOf pcA
              if areaFrom = pcAreaRef then
                ({ obj with visible := false, modelLoaded := false },
                  [Eff.objHide objId, Eff.unloadModel objId])
              else if areaTo = pcAreaRef then
                ({ obj with modelLoaded := true, visible := true },
                  [Eff.loadModel objId, Eff.objShow objId])
              else (obj, [])
        let obj2 := { vis.1 with area := some dst, x := x, y := y, z := z }
        (obj2,
          [Eff.lockFrame, Eff.warnMoving areaFrom areaTo] ++ vis.2 ++
            [Eff.setArea objId dst, Eff.setPosition objId, Eff.unlockFrame] ++
            (if env.pcPtr = some objId then [Eff.movedPC] else []))
      else
        ({ obj with x := x, y := y, z := z },
          [Eff.lockFrame, Eff.setPosition objId, Eff.unlockFrame] ++
            (if env.pcPtr = some objId then [Eff.movedPC] else []))

/-- C3: when the entity has no current area or the destination is null,
`jumpTo` reports an error and performs no mutation: the returned state is
exactly the input state (area, position, visibility untouched) and the
whole effect trace is the single warning — in particular the frame lock is
never acquired. -/
theorem jumpTo_precondition (env : JumpEnv) (objId : Nat) (obj : ObjState)
    (area : Option Nat) (x y z : Float)
    (h : obj.area = none ∨ area = none) :
    (jumpTo env objId obj area x y z).1 = obj ∧
    (jumpTo env objId obj area x y z).2 =
      [Eff.warnNoArea obj.area.isSome area.isSome] ∧
    Eff.lockFrame ∉ (jumpTo env objId obj area x y z).2 := by
  obtain ⟨oa, ox, oy, oz, ov, om⟩ := obj
  dsimp only at h
  rcases h with h | h
  · subst h
    rcases area with _ | a <;> simp [jumpTo]
  · subst h
    rcases oa with _ | src <;> simp [jumpTo]

/-- Witness for `jumpTo_precondition`: null destination area. -/
theorem jumpTo_precondition_witness :
    (jumpTo ⟨fun _ => "", none, none⟩ 4
        ⟨some 1, 0.0, 0.0, 0.0, true, true⟩ none 1.0 2.0 3.0).1 =
      ⟨some 1, 0.0, 0.0, 0.0, true, true⟩ :=
  (jumpTo_precondition ⟨fun _ => "", none, none⟩ 4
    ⟨some 1, 0.0, 0.0, 0.0, true, true⟩ none 1.0 2.0 3.0 (Or.inr rfl)).1

/-- C5: under the precondition (entity has an area, destination non-null),
after the call the entity's area is the destination and its position is
`(x, y, z)` — also when source and destination coincide. -/
theorem jumpTo_updates (env : JumpEnv) (objId : Nat) (obj : ObjState)
    (x y z : Float) (src dst : Nat) (h1 : obj.area = some src) :
    ((jumpTo env objId obj (some dst) x y z).1.area = some dst ∧
      (jumpTo env objId obj (some dst) x y z).1.x = x ∧
      (jumpTo env objId obj (some dst) x y z).1.y = y ∧
      (jumpTo env objId obj (some dst) x y z).1.z = z) := by
  obtain ⟨oa, ox, oy, oz, ov, om⟩ := obj
  dsimp only at h1
  subst h1
  by_cases hmove : src = dst
  · subst hmove
    simp [jumpTo]
  · simp [jumpTo, hmove]

/-- Witness for `jumpTo_updates`: a same-area, position-only move. -/
theorem jumpTo_updates_witness :
    ((jumpTo ⟨fun _ => "", none, none⟩ 4
        ⟨some 1, 0.0, 0.0, 0.0, true, true⟩ (some 1) 1.0 2.0 3.0).1.area =
      some 1 ∧
      (jumpTo ⟨fun _ => "", none, none⟩ 4
        ⟨some 1, 0.0, 0.0, 0.0, true, true⟩ (some 1) 1.0 2.0 3.0).1.x = 1.0 ∧
      (jumpTo ⟨fun _ => "", none, none⟩ 4
        ⟨some 1, 0.0, 0.0, 0.0, true, true⟩ (some 1) 1.0 2.0 3.0).1.y = 2.0 ∧
      (jumpTo ⟨fun _ => "", none, none⟩ 4
        ⟨some 1, 0.0, 0.0, 0.0, true, true⟩ (some 1) 1.0 2.0 3.0).1.z = 3.0) :=
  jumpTo_updates ⟨fun _ => "", none, none⟩ 4
    ⟨some 1, 0.0, 0.0, 0.0, true, true⟩ 1.0 2.0 3.0 1 1 rfl

/-- C4: during a cross-area relocation, an entity leaving the presented area
(the area holding the player character) is hidden and its model released
exactly once; an entity entering the presented area has its model loaded and
is shown exactly once; an entity moving between two non-presented areas is
neither hidden nor shown. The source compares areas by resref, so the
hypothesis `hid` states that resrefs identify the areas involved (two
distinct loaded areas never share a resref). -/
theorem jumpTo_visibility (env : JumpEnv) (objId : Nat) (obj : ObjState)
    (x y z : Float) (src dst : Nat) (h1 : obj.area = some src)
    (hcross : src ≠ dst)
    (hid : ∀ pcA, env.pcArea = some pcA →
      (env.resRefOf src = env.resRefOf pcA ↔ src = pcA) ∧
      (env.resRefOf dst = env.resRefOf pcA ↔ dst = pcA)) :
    (env.pcArea = some src →
      (jumpTo env objId obj (some dst) x y z).2.count (Eff.objHide objId) = 1 ∧
      (jumpTo env objId obj (some dst) x y z).2.count (Eff.unloadModel objId) = 1 ∧
      (jumpTo env objId obj (some dst) x y z).2.count (Eff.loadModel objId) = 0 ∧
      (jumpTo env objId obj (some dst) x y z).2.count (Eff.objShow objId) = 0) ∧
    (env.pcArea = some dst →
      (jumpTo env objId obj (some dst) x y z).2.count (Eff.loadModel objId) = 1 ∧
      (jumpTo env objId obj (some dst) x y z).2.count (Eff.objShow objId) = 1 ∧
      (jumpTo env objId obj (some dst) x y z).2.count (Eff.objHide objId) = 0 ∧
      (jumpTo env objId obj (some dst) x y z).2.count (Eff.unloadModel objId) = 0) ∧
    (env.pcArea ≠ some src → env.pcArea ≠ some dst →
      (jumpTo env objId obj (some dst) x y z).2.count (Eff.objHide objId) = 0 ∧
      (jumpTo env objId obj (some dst) x y z).2.count (Eff.unloadModel objId) = 0 ∧
      (jumpTo env objId obj (some dst) x y z).2.count (Eff.loadModel objId) = 0 ∧
      (jumpTo env objId obj (some dst) x y z).2.count (Eff.objShow objId) = 0) := by
  obtain ⟨oa, ox, oy, oz, ov, om⟩ := obj
  dsimp only at h1
  subst h1
  refine ⟨?_, ?_, ?_⟩
  · intro hpcs
    have hfrom : env.resRefOf src = env.resRefOf src := rfl
    refine ⟨?_, ?_, ?_, ?_⟩ <;>
      by_cases hpc : env.pcPtr = some objId <;>
        simp [jumpTo, hcross, hpcs, hfrom, hpc]
  · intro hpcs
    have hfrom : ¬ env.resRefOf src = env.resRefOf dst := by
      intro hconeq
      exact hcross (((hid dst hpcs).1).mp hconeq)
    have hto : env.resRefOf dst = env.resRefOf dst := rfl
    refine ⟨?_, ?_, ?_, ?_⟩ <;>
      by_cases hpc : env.pcPtr = some objId <;>
        simp [jumpTo, hcross, hpcs, hfrom, hto, hpc]
  · intro hns hnd
    rcases hpcs : env.pcArea with _ | pcA
    · refine ⟨?_, ?_, ?_, ?_⟩ <;>
        by_cases hpc : env.pcPtr = some objId <;>
          simp [jumpTo, hcross, hpcs, hpc]
    · have hsrc : ¬ env.resRefOf src = env.resRefOf pcA := by
        intro hconeq
        exact hns (by rw [hpcs, ((hid pcA hpcs).1).mp hconeq])
      have hdst : ¬ env.resRefOf dst = env.resRefOf pcA := by
        intro hconeq
        exact hnd (by rw [hpcs, ((hid pcA hpcs).2).mp hconeq])
      refine ⟨?_, ?_, ?_, ?_⟩ <;>
        by_cases hpc : env.pcPtr = some objId <;>
          simp [jumpTo, hcross, hpcs, hsrc, hdst, hpc]

/-- Witness for `jumpTo_visibility`: entity 4 leaves the presented area 1
for non-presented area 2 and is hidden exactly once. -/
theorem jumpTo_visibility_witness :
    (jumpTo ⟨fun n => toString n, some 9, some 1⟩ 4
        ⟨some 1, 0.0, 0.0, 0.0, true, true⟩ (some 2) 1.0 2.0 3.0).2.count
        (Eff.objHide 4) = 1 :=
  ((jumpTo_visibility ⟨fun n => toString n, some 9, some 1⟩ 4
      ⟨some 1, 0.0, 0.0, 0.0, true, true⟩ 1.0 2.0 3.0 1 2 rfl (by decide)
      (fun pcA hpcA => by
        have hpc1 : pcA = 1 := by simpa using hpcA.symm
        subst hpc1
        exact ⟨⟨fun _ => rfl, fun _ => rfl⟩,
          ⟨fun hh => absurd hh (by decide), fun hh => absurd hh (by decide)⟩⟩)).1
    rfl).1

/-- C6: `lockFrame` and `unlockFrame` are paired on every path of `jumpTo`:
on the error path neither is called; on every other path the trace is
`lockFrame`, then a body free of lock operations whose mutations all sit
between the lock operations, then `setPosition` immediately followed by
`unlockFrame`, then at most the `movedPC` notification — so the lock is
taken exactly once before any world mutation and released exactly once
after the position update. -/
theorem jumpTo_lock_paired (env : JumpEnv) (objId : Nat) (obj : ObjState)
    (area : Option Nat) (x y z : Float) :
    ((obj.area = none ∨ area = none) →
      Eff.lockFrame ∉ (jumpTo env objId obj area x y z).2 ∧
      Eff.unlockFrame ∉ (jumpTo env objId obj area x y z).2) ∧
    (∀ src dst, obj.area = some src → area = some dst →
      (jumpTo env objId obj area x y z).2.count Eff.lockFrame = 1 ∧
      (jumpTo env objId obj area x y z).2.count Eff.unlockFrame = 1 ∧
      ∃ body,
        (jumpTo env objId obj area x y z).2 =
          Eff.lockFrame :: body ++
            [Eff.setPosition objId, Eff.unlockFrame] ++
            (if env.pcPtr = some objId then [Eff.movedPC] else []) ∧
        Eff.lockFrame ∉ body ∧ Eff.unlockFrame ∉ body ∧
        Eff.setPosition objId ∉ body) := by
  obtain ⟨oa, ox, oy, oz, ov, om⟩ := obj
  constructor
  · intro h
    dsimp only at h
    rcases h with h | h
    · subst h
      rcases area with _ | a <;> simp [jumpTo]
    · subst h
      rcases oa with _ | src <;> simp [jumpTo]
  · intro src dst h1 h2
    dsimp only at h1
    subst h1
    subst h2
    by_cases hmove : src = dst
    · subst hmove
      refine ⟨?_, ?_, [], ?_, ?_, ?_, ?_⟩ <;>
        by_cases hpc : env.pcPtr = some objId <;>
          simp [jumpTo, hpc]
    · rcases hpcs : env.pcArea with _ | pcA
      · refine ⟨?_, ?_, [Eff.warnMoving (env.resRefOf src) (env.resRefOf dst),
            Eff.setArea objId dst], ?_, ?_, ?_, ?_⟩ <;>
          by_cases hpc : env.pcPtr = some objId <;>
            simp [jumpTo, hmove, hpcs, hpc]
      · by_cases hfrom : env.resRefOf src = env.resRefOf pcA
        · refine ⟨?_, ?_, [Eff.warnMoving (env.resRefOf src) (env.resRefOf dst),
              Eff.objHide objId, Eff.unloadModel objId, Eff.setArea objId dst],
              ?_, ?_, ?_, ?_⟩ <;>
            by_cases hpc : env.pcPtr = some objId <;>
              simp [jumpTo, hmove, hpcs, hfrom, hpc]
        · by_cases hto : env.resRefOf dst = env.resRefOf pcA
          · refine ⟨?_, ?_, [Eff.warnMoving (env.resRefOf src) (env.resRefOf dst),
                Eff.loadModel objId, Eff.objShow objId, Eff.setArea objId dst],
                ?_, ?_, ?_, ?_⟩ <;>
              by_cases hpc : env.pcPtr = some objId <;>
                simp [jumpTo, hmove, hpcs, hfrom, hto, hpc]
          · refine ⟨?_, ?_, [Eff.warnMoving (env.resRefOf src) (env.resRefOf dst),
                Eff.setArea objId dst], ?_, ?_, ?_, ?_⟩ <;>
              by_cases hpc : env.pcPtr = some objId <;>
                simp [jumpTo, hmove, hpcs, hfrom, hto, hpc]

/-- Witness for `jumpTo_lock_paired` on the error path at a concrete call. -/
theorem jumpTo_lock_paired_witness :
    Eff.lockFrame ∉
        (jumpTo ⟨fun _ => "", none, none⟩ 4
          ⟨none, 0.0, 0.0, 0.0, true, true⟩ (some 1) 1.0 2.0 3.0).2 ∧
      Eff.unlockFrame ∉
        (jumpTo ⟨fun _ => "", none, none⟩ 4
          ⟨none, 0.0, 0.0, 0.0, true, true⟩ (some 1) 1.0 2.0 3.0).2 :=
  (jumpTo_lock_paired ⟨fun _ => "", none, none⟩ 4
    ⟨none, 0.0, 0.0, 0.0, true, true⟩ (some 1) 1.0 2.0 3.0).1 (Or.inl rfl)

/-- C7: under the precondition, the module is notified via `movedPC` exactly
when the relocated entity is the player character, and the notification is
the last effect, strictly after `unlockFrame`. -/
theorem jumpTo_movedPC (env : JumpEnv) (objId : Nat) (obj : ObjState)
    (x y z : Float) (src dst : Nat) (h1 : obj.area = some src) :
    (jumpTo env objId obj (some dst) x y z).2.count Eff.movedPC =
      (if env.pcPtr = some objId then 1 else 0) ∧
    ∃ pre,
      (jumpTo env objId obj (some dst) x y z).2 =
        pre ++ [Eff.unlockFrame] ++
          (if env.pcPtr = some objId then [Eff.movedPC] else []) ∧
      Eff.movedPC ∉ pre ∧ Eff.unlockFrame ∉ pre := by
  obtain ⟨oa, ox, oy, oz, ov, om⟩ := obj
  dsimp only at h1
  subst h1
  by_cases hmove : src = dst
  · subst hmove
    refine ⟨?_, [Eff.lockFrame, Eff.setPosition objId], ?_, ?_, ?_⟩ <;>
      by_cases hpc : env.pcPtr = some objId <;>
        simp [jumpTo, hpc]
  · rcases hpcs : env.pcArea with _ | pcA
    · refine ⟨?_, Eff.lockFrame ::
          [Eff.warnMoving (env.resRefOf src) (env.resRefOf dst),
            Eff.setArea objId dst, Eff.setPosition objId], ?_, ?_, ?_⟩ <;>
        by_cases hpc : env.pcPtr = some objId <;>
          simp [jumpTo, hmove, hpcs, hpc]
    · by_cases hfrom : env.resRefOf src = env.resRefOf pcA
      · refine ⟨?_, Eff.lockFrame ::
            [Eff.warnMoving (env.resRefOf src) (env.resRefOf dst),
              Eff.objHide objId, Eff.unloadModel objId, Eff.setArea objId dst,
              Eff.setPosition objId], ?_, ?_, ?_⟩ <;>
          by_cases hpc : env.pcPtr = some objId <;>
            simp [jumpTo, hmove, hpcs, hfrom, hpc]
      · by_cases hto : env.resRefOf dst = env.resRefOf pcA
        · refine ⟨?_, Eff.lockFrame ::
              [Eff.warnMoving (env.resRefOf src) (env.resRefOf dst),
                Eff.loadModel objId, Eff.objShow objId, Eff.setArea objId dst,
                Eff.setPosition objId], ?_, ?_, ?_⟩ <;>
            by_cases hpc : env.pcPtr = some objId <;>
              simp [jumpTo, hmove, hpcs, hfrom, hto, hpc]
        · refine ⟨?_, Eff.lockFrame ::
              [Eff.warnMoving (env.resRefOf src) (env.resRefOf dst),
                Eff.setArea objId dst, Eff.setPosition objId], ?_, ?_, ?_⟩ <;>
            by_cases hpc : env.pcPtr = some objId <;>
              simp [jumpTo, hmove, hpcs, hfrom, hto, hpc]

/-- Witness for `jumpTo_movedPC`: the relocated entity is the PC. -/
theorem jumpTo_movedPC_witness :
    (jumpTo ⟨fun n => toString n, some 4, some 1⟩ 4
        ⟨some 1, 0.0, 0.0, 0.0, true, true⟩ (some 2) 1.0 2.0 3.0).2.count
        Eff.movedPC =
      (if (some 4 : Option Nat) = some 4 then 1 else 0) :=
  (jumpTo_movedPC ⟨fun n => toString n, some 4, some 1⟩ 4
    ⟨some 1, 0.0, 0.0, 0.0, true, true⟩ 1.0 2.0 3.0 1 2 rfl).1

end NWN2
